import Mathlib

/-!
Verification of the symconf (package `autoconf`) theme-resolution and
link-reconciliation engine, as a shallow embedding of `src/autoconf/config.py`.

Modelling conventions:
* Python `pathlib.Path` values are modelled as lists of path components
  (`Path := List String`); joining a directory with a filename appends a
  component.
* Python `dict` is modelled as an association list with insertion-order
  overwrite semantics (`dictSet` replaces in place or appends; `dictGet`
  returns the value of the unique key).
* Directory contents (the `generated/`, `user/` and `call/` subdirectories of
  an application, i.e. the artifact catalog) are inputs to the model: a
  missing directory is `none`, a present one is `some` of its file-name
  listing in iteration order.
* The live filesystem mutated by the executor is a separate `Fs` value:
  an association list of path entries (regular file with content, or symbolic
  link with target) plus a fixed set of directories.  `Path.exists()` follows
  symbolic links (with fuel; exhausted fuel models ELOOP, on which Python's
  `Path.exists()` returns `False`), `Path.is_symlink()` does not follow.
* Console output itself is not modelled: a `print` whose arguments evaluate
  without error has no effect on any modelled state.  The unclosed
  parenthesis in the f-string of the script-announcement `print` on line 331
  of `config.py` is treated as the print statement it plainly intends.
* Runtime errors that the Python code raises while evaluating expressions —
  including the arguments of `print` calls — are modelled explicitly as
  error outcomes: the `NameError` for the undefined `filename` in the
  diagnostic print of `get_matching_configs` (line 182), the `NameError` for
  the undefined `abs_pat` in the `config_map` branch of `update_app_config`
  (line 288), the `TypeError` from iterating the `None` returned by
  `get_matching_scripts` when the `call/` directory is missing, the
  `CalledProcessError` raised by `subprocess.check_output` when a script
  exits non-zero, the `AttributeError` raised by the captured-output print's
  `Style.RESET` (line 334; colorama's `Style` defines `RESET_ALL`, not
  `RESET`) after every successful script, and the `NameError`s for the
  undefined `app_registry` and `app_list` in `update_apps`.
* `util.absolute_path` (module `util` is not part of the sources) is modelled
  from the spec as normalization to an absolute path; since paths in this
  model are already absolute component lists it is the identity.
-/

namespace Autoconf

abbrev Path := List String

/-! ### Python dict as an association list -/

/-- Set a key in a Python-style dict: replace the value in place if the key is
present, otherwise append the binding at the end (insertion order). -/
def dictSet {α β : Type} [DecidableEq α] : List (α × β) → α → β → List (α × β)
  | [], k, v => [(k, v)]
  | x :: rest, k, v => if x.1 = k then (k, v) :: rest else x :: dictSet rest k v

/-- Look a key up in a Python-style dict. -/
def dictGet {α β : Type} [DecidableEq α] : List (α × β) → α → Option β
  | [], _ => none
  | x :: rest, k => if x.1 = k then some x.2 else dictGet rest k

/-- Remove a key from a Python-style dict (`unlink`); removing an absent key
is not an error. -/
def dictRemove {α β : Type} [DecidableEq α] : List (α × β) → α → List (α × β)
  | [], _ => []
  | x :: rest, k => if x.1 = k then dictRemove rest k else x :: dictRemove rest k

/-! ### Filename splitting, `pathname.split('.')` and `'.'.join(parts[1:])` -/

/-- The semantics of Python `s.split('.')`: always at least one part, empty
parts kept. -/
def splitDot : List Char → List (List Char)
  | [] => [[]]
  | c :: rest =>
    match splitDot rest with
    | [] => [[]]
    | p :: ps => if c = '.' then [] :: p :: ps else (c :: p) :: ps

/-- The semantics of Python `'.'.join(parts)`. -/
def joinDot : List (List Char) → List Char
  | [] => []
  | [l] => l
  | l :: l2 :: ls => l ++ '.' :: joinDot (l2 :: ls)

/-- Parse an artifact filename into its theme part (`parts[0]`) and conf part
(`'.'.join(parts[1:])`); `none` when the name has fewer than two
dot-separated components (the malformed case of `get_matching_configs`). -/
def parseName (s : String) : Option (String × String) :=
  match splitDot s.data with
  | t :: c :: rest => some (String.mk t, String.mk (joinDot (c :: rest)))
  | _ => none

/-- The semantics of Python `pathlib.Path(name).stem`: the final component
without its last suffix; the dot must be neither the first nor the last
character for a suffix to exist. -/
def stem (s : String) : String :=
  let cs := s.data
  let dots := (cs.enum.filter (fun x => x.2 = '.')).map (fun x => x.1)
  match dots.getLast? with
  | none => s
  | some i => if 0 < i ∧ i < cs.length - 1 then String.mk (cs.take i) else s

/-! ### The artifact catalog: `app_config_map` -/

/-- Directory listings for one application under `apps/`: the two artifact
tiers and the `call/` script directory.  `none` models a missing directory. -/
structure AppDir where
  generated : Option (List String)
  user : Option (List String)
  callDir : Option (List String)
deriving DecidableEq

/-- One tier scan of `app_config_map`: iterate the subdirectory (if present)
and write each file into the map keyed by its filename. -/
def scanTier (appsDir : Path) (appName sub : String) (files : Option (List String))
    (m : List (String × Path)) : List (String × Path) :=
  match files with
  | none => m
  | some fs => fs.foldl (fun acc n => dictSet acc n (appsDir ++ [appName, sub, n])) m

/-- Model of `ConfigManager.app_config_map`: scan `generated` then `user`, letting the
`user` tier overwrite entries with the identical filename. -/
def app_config_map (appsDir : Path) (appName : String) (dirs : AppDir) :
    List (String × Path) :=
  scanTier appsDir appName "user" dirs.user
    (scanTier appsDir appName "generated" dirs.generated [])

/-! ### The matcher: `get_matching_configs` -/

/-- Model of `ConfigManager.resolve_scheme` (the commented-out auto-detection always
degrades to the wildcard). -/
def resolve_scheme (s : String) : String := if s = "auto" then "any" else s

/-- Model of `ConfigManager.resolve_palette`. -/
def resolve_palette (p : String) : String := if p = "auto" then "any" else p

/-- The specificity ladder `theme_prefixes`, least specific first. -/
def theme_prefix_list (palette scheme : String) : List String :=
  ["any-any", "any-" ++ scheme, palette ++ "-any", palette ++ "-" ++ scheme]

/-- The `file_parts` collection loop of `get_matching_configs`.  A filename
with fewer than two dot-separated components reaches
`print(f'Filename "{filename}" ...')` whose `filename` variable does not
exist, so the loop raises `NameError` instead of skipping the entry.  The
value of the map entry is carried along (the source reads it back via
`app_config_map[pathname]`, which is the same value). -/
def collectFileParts : List (String × Path) → Except String (List (String × String × Path))
  | [] => .ok []
  | x :: rest =>
    match parseName x.1 with
    | none => .error "NameError: name filename is not defined"
    | some tc => (collectFileParts rest).map (fun r => (tc.1, tc.2, x.2) :: r)

/-- One pass of the matching loop: for a fixed theme prefix, write every
candidate whose theme part equals the prefix into the map under its conf
part, overwriting earlier entries. -/
def matchPass (fileParts : List (String × String × Path)) (pfx : String)
    (m : List (String × Path)) : List (String × Path) :=
  fileParts.foldl (fun acc fp => if fp.1 = pfx then dictSet acc fp.2.1 fp.2.2 else acc) m

/-- Model of `ConfigManager.get_matching_configs`: resolve wildcards, parse all
catalog filenames (possibly raising the `filename` NameError), then run the
four matching passes from least to most specific prefix. -/
def get_matching_configs (appsDir : Path) (appName : String) (dirs : AppDir)
    (scheme palette : String) : Except String (List (String × Path)) :=
  let s := resolve_scheme scheme
  let p := resolve_palette palette
  (collectFileParts (app_config_map appsDir appName dirs)).map (fun fileParts =>
    (theme_prefix_list p s).foldl (fun m pfx => matchPass fileParts pfx m) [])

/-! ### `get_matching_scripts` -/

/-- Model of `ConfigManager.get_matching_scripts`: `none` when the `call/` directory
does not exist (the Python function falls off the end and returns `None`);
otherwise collect scripts whose stem matches a ladder prefix, in ladder
order, and deduplicate via `list(set(...))` (modelled by `List.dedup`; the
set-based order of the Python original is arbitrary, and no claim below
depends on the order). -/
def get_matching_scripts (appsDir : Path) (appName : String)
    (callDir : Option (List String)) (scheme palette : String) : Option (List Path) :=
  match callDir with
  | none => none
  | some files =>
    let pfxs := theme_prefix_list palette scheme
    let scriptList := pfxs.foldl (fun acc pfx =>
      acc ++ (files.filter (fun f => stem f = pfx)).map
        (fun f => appsDir ++ [appName, "call", f])) []
    some scriptList.dedup

/-! ### The filesystem model -/

/-- A filesystem entry: a regular file (with its byte content) or a symbolic
link (with its target path). -/
inductive FsEntry where
  | file (content : String)
  | symlink (target : Path)
deriving DecidableEq

/-- The live filesystem: path entries plus the (fixed) set of directories.
Creating or removing symlinks never creates or removes directories. -/
structure Fs where
  entries : List (Path × FsEntry)
  dirs : List Path
deriving DecidableEq

/-- Raw entry lookup (no symlink following), as `os.lstat`. -/
def Fs.lookup (fs : Fs) (p : Path) : Option FsEntry := dictGet fs.entries p

/-- Fuelled existence check following symbolic links; exhausted fuel models
ELOOP, on which Python `Path.exists()` returns `False`. -/
def existsFuel (fs : Fs) : Nat → Path → Bool
  | 0, _ => false
  | n + 1, p =>
    match fs.lookup p with
    | some (.file _) => true
    | some (.symlink t) => existsFuel fs n t
    | none => decide (p ∈ fs.dirs)

/-- Python `Path.exists()`: follows symlinks; a directory also exists. -/
def Fs.pexists (fs : Fs) (p : Path) : Bool := existsFuel fs (fs.entries.length + 1) p

/-- Python `Path.is_symlink()`: checks the entry itself, never follows. -/
def Fs.isSymlink (fs : Fs) (p : Path) : Bool :=
  match fs.lookup p with
  | some (.symlink _) => true
  | _ => false

/-- Python `Path.unlink(missing_ok=True)`. -/
def Fs.unlinkP (fs : Fs) (p : Path) : Fs :=
  { fs with entries := dictRemove fs.entries p }

/-- Python `Path.symlink_to(t)` (called only after the unlink, so the entry
slot is free). -/
def Fs.symlinkTo (fs : Fs) (p t : Path) : Fs :=
  { fs with entries := dictSet fs.entries p (.symlink t) }

/-- Python `Path.parent`. -/
def parentPath (p : Path) : Path := p.dropLast

/-! ### The link executor of `update_app_config` -/

/-- Mutable state of one `update_app_config` run: the filesystem, the
`links_succ` and `links_fail` accumulators, the trace of executed scripts,
and the pending exception (if a statement raised). -/
structure RunState where
  fs : Fs
  succ : List (Path × Path)
  fail : List (Path × Path)
  scripts : List Path
  error : Option String
deriving DecidableEq

/-- Run the matched scripts through `subprocess.check_output`.  The loop can
never complete an iteration: a script whose exit status is nonzero (per the
environment `env`) makes `check_output` raise `CalledProcessError`, and
after a successful script the captured-output print evaluates
`Style.RESET`, an attribute colorama's `Style` does not define (it has
`RESET_ALL`), raising `AttributeError` (config.py line 334).  Either way the
first script executed aborts the run; only an empty matched list lets the
operation loop continue. -/
def runScripts (env : Path → Bool) (st : RunState) : List Path → RunState
  | [] => st
  | s :: _ =>
    let st1 := { st with scripts := st.scripts ++ [s] }
    if env s then { st1 with error := some "AttributeError: Style has no attribute RESET" }
    else { st1 with error := some "CalledProcessError" }

/-- One iteration of the `for from_path, to_path in to_symlink` loop:
the three precondition checks (missing artifact, missing target parent,
foreign file), then unlink + symlink + `links_succ` append, then the script
execution block.  `scriptsOpt` is the value `get_matching_scripts` returns
(the call reads only the static `call/` listing, so it is the same value at
every iteration); iterating a `none` raises `TypeError`. -/
def runOp (scriptsOpt : Option (List Path)) (env : Path → Bool)
    (st : RunState) (op : Path × Path) : RunState :=
  if !(st.fs.pexists op.2) then
    { st with fail := st.fail ++ [op] }
  else if !(st.fs.pexists (parentPath op.1)) then
    { st with fail := st.fail ++ [op] }
  else if st.fs.pexists op.1 && !(st.fs.isSymlink op.1) then
    { st with fail := st.fail ++ [op] }
  else
    let fs1 := Fs.symlinkTo (Fs.unlinkP st.fs op.1) op.1 op.2
    let st1 := { st with fs := fs1, succ := st.succ ++ [op] }
    match scriptsOpt with
    | none => { st1 with error := some "TypeError: NoneType object is not iterable" }
    | some scripts => runScripts env st1 scripts

/-- The executor loop; a raised exception propagates (no further operations
are processed). -/
def runOps (scriptsOpt : Option (List Path)) (env : Path → Bool) :
    RunState → List (Path × Path) → RunState
  | st, [] => st
  | st, op :: rest =>
    if st.error.isSome then st
    else runOps scriptsOpt env (runOp scriptsOpt env st op) rest

/-- Apply a full operation list starting from a clean run state. -/
def applyOps (scriptsOpt : Option (List Path)) (env : Path → Bool) (fs0 : Fs)
    (ops : List (Path × Path)) : RunState :=
  runOps scriptsOpt env ⟨fs0, [], [], [], none⟩ ops

/-! ### Planning and `update_app_config` -/

/-- Modelled from the spec: `util.absolute_path` (the `util` module is not
among the sources) normalizes its argument to an absolute path; paths in
this model are already absolute component lists, so it is the identity. -/
def absolute_path (p : Path) : Path := p

/-- Per-application registry settings relevant to linking: at most one of
`config_dir` and `config_map`. -/
structure AppSettings where
  config_dir : Option Path
  config_map : Option (List (String × Path))
deriving DecidableEq

/-- The `config_map` planning branch.  For the first config tail present in
the map the source evaluates `abs_pat(...)`, a name that does not exist, so
the branch raises `NameError`; the intended append is unreachable, and tails
absent from the map are skipped silently. -/
def planMapOps (cmap : List (String × Path)) :
    List (String × Path) → Except String (List (Path × Path))
  | [] => .ok []
  | x :: rest =>
    if (dictGet cmap x.1).isSome then .error "NameError: name abs_pat is not defined"
    else planMapOps cmap rest

/-- Build `to_symlink` from the resolved file map and the app settings (the
conflict of both target forms is checked by the caller before this point). -/
def planOps (settings : AppSettings) (fileMap : List (String × Path)) :
    Except String (List (Path × Path)) :=
  match settings.config_dir with
  | some cdir => .ok (fileMap.map (fun x => (absolute_path (cdir ++ [x.1]), x.2)))
  | none =>
    match settings.config_map with
    | some cmap => planMapOps cmap fileMap
    | none => .ok []

/-- Outcome of `update_app_config`: the config-conflict skip, an exception
raised before the executor loop started, or an executor run (whose own
`error` field records an exception raised inside the loop). -/
inductive UpdateOutcome where
  | skipped
  | planError (msg : String)
  | ran (st : RunState)
deriving DecidableEq

/-- Model of `ConfigManager.update_app_config`: conflict check, matching, planning,
then the executor loop with per-success script execution. -/
def update_app_config (appsDir : Path) (appName : String) (dirs : AppDir)
    (settings : AppSettings) (env : Path → Bool) (scheme palette : String)
    (fs0 : Fs) : UpdateOutcome :=
  if settings.config_dir.isSome && settings.config_map.isSome then .skipped
  else
    match get_matching_configs appsDir appName dirs scheme palette with
    | .error e => .planError e
    | .ok fileMap =>
      match planOps settings fileMap with
      | .error e => .planError e
      | .ok ops =>
        .ran (applyOps (get_matching_scripts appsDir appName dirs.callDir scheme palette)
          env fs0 ops)

/-- The operation list `update_app_config` would execute, when planning
reaches the executor (`none` on the conflict skip or a planning exception).
Planning reads only the static inputs, never the live filesystem, so two
runs with unchanged inputs plan identical operations. -/
def planned (appsDir : Path) (appName : String) (dirs : AppDir)
    (settings : AppSettings) (scheme palette : String) : Option (List (Path × Path)) :=
  if settings.config_dir.isSome && settings.config_map.isSome then none
  else
    match get_matching_configs appsDir appName dirs scheme palette with
    | .error _ => none
    | .ok fileMap =>
      match planOps settings fileMap with
      | .error _ => none
      | .ok ops => some ops

/-- Project the executor state out of an `UpdateOutcome` (used to state
concrete facts about completed runs). -/
def ranState : UpdateOutcome → Option RunState
  | .ran st => some st
  | _ => none

/-! ### `update_apps` -/

/-- The application selector of `update_apps`. -/
inductive AppsArg where
  | star
  | names (l : List String)
deriving DecidableEq

/-- Model of `ConfigManager.update_apps`.  The non-star branch evaluates
`[a for a in app_list if a in app_registry]` with `app_list` not yet bound
and `app_registry` undefined, raising immediately; the star branch, for a
non-empty registry, evaluates `app_registry[app_name]` (also undefined) on
the first loop iteration, raising before any application is processed. -/
def update_apps (registry : List (String × AppSettings)) (apps : AppsArg) :
    Except String Unit :=
  match apps with
  | .names _ => .error "NameError: name app_list is not defined"
  | .star =>
    if registry.isEmpty then .ok ()
    else .error "NameError: name app_registry is not defined"

/-! ### Derived definitions used by the verification -/

/-- The parsed candidate list when every filename is well formed. -/
def parsedParts (acm : List (String × Path)) : List (String × String × Path) :=
  acm.filterMap (fun x => (parseName x.1).map (fun tc => (tc.1, tc.2, x.2)))

/-- A path is blocked for linking when it exists and is not a symlink: a
regular file, or (entry-free) an existing directory. -/
def blockedAt (fs : Fs) (p : Path) : Bool :=
  match fs.lookup p with
  | some (.file _) => true
  | some (.symlink _) => false
  | none => decide (p ∈ fs.dirs)

/-- Whether a link operation passes all three executor preconditions in the
given filesystem. -/
def opDecision (fs : Fs) (op : Path × Path) : Bool :=
  fs.pexists op.2 && fs.pexists (parentPath op.1) && !(blockedAt fs op.1)

/-- The filesystem effect of one successful link operation:
`unlink(missing_ok=True)` then `symlink_to`. -/
def linkAt (fs : Fs) (op : Path × Path) : Fs :=
  Fs.symlinkTo (Fs.unlinkP fs op.1) op.1 op.2

/-- Fold of link effects over an operation list, decisions taken against a
fixed base filesystem `fsb`. -/
def fsAfterFrom (fsb : Fs) (ops : List (Path × Path)) (acc : Fs) : Fs :=
  ops.foldl (fun a op => if opDecision fsb op then linkAt a op else a) acc

/-- The final filesystem of a run in which every operation's decision is
taken against the starting filesystem (the stable-run characterization). -/
def fsAfter (fs : Fs) (ops : List (Path × Path)) : Fs := fsAfterFrom fs ops fs

/-- Whether a path holds a regular file (decidable form of the artifact
hypothesis of the idempotence theorem). -/
def isFileAt (fs : Fs) (p : Path) : Bool :=
  match fs.lookup p with
  | some (.file _) => true
  | _ => false

/-! ### Lemmas about the dict model -/

theorem dictGet_dictSet_self {α β : Type} [DecidableEq α] (m : List (α × β)) (k : α) (v : β) :
    dictGet (dictSet m k v) k = some v := by
  induction m with
  | nil => simp [dictSet, dictGet]
  | cons x rest ih =>
    by_cases h : x.1 = k
    · simp [dictSet, dictGet, h]
    · simp [dictSet, dictGet, h, ih]

theorem dictGet_dictSet_ne {α β : Type} [DecidableEq α] (m : List (α × β)) (k k' : α) (v : β)
    (h : k' ≠ k) : dictGet (dictSet m k v) k' = dictGet m k' := by
  induction m with
  | nil => simp [dictSet, dictGet, Ne.symm h]
  | cons x rest ih =>
    by_cases h1 : x.1 = k
    · simp [dictSet, dictGet, h1, Ne.symm h]
    · by_cases h2 : x.1 = k'
      · simp [dictSet, dictGet, h1, h2, h]
      · simp [dictSet, dictGet, h1, h2, ih]

theorem dictGet_dictRemove_self {α β : Type} [DecidableEq α] (m : List (α × β)) (k : α) :
    dictGet (dictRemove m k) k = none := by
  induction m with
  | nil => simp [dictRemove, dictGet]
  | cons x rest ih =>
    by_cases h : x.1 = k
    · simp [dictRemove, h, ih]
    · simp [dictRemove, dictGet, h, ih]

theorem dictGet_dictRemove_ne {α β : Type} [DecidableEq α] (m : List (α × β)) (k k' : α)
    (h : k' ≠ k) : dictGet (dictRemove m k) k' = dictGet m k' := by
  induction m with
  | nil => simp [dictRemove]
  | cons x rest ih =>
    by_cases h1 : x.1 = k
    · simp [dictRemove, dictGet, h1, Ne.symm h, ih]
    · simp [dictRemove, dictGet, h1, ih]

theorem mem_keys_dictSet {α β : Type} [DecidableEq α] (m : List (α × β)) (k a : α) (v : β) :
    a ∈ (dictSet m k v).map Prod.fst ↔ a ∈ m.map Prod.fst ∨ a = k := by
  induction m with
  | nil => simp [dictSet]
  | cons x rest ih =>
    by_cases h : x.1 = k
    · simp only [dictSet, h, if_true, List.map_cons, List.mem_cons]
      tauto
    · simp only [dictSet, h, if_false, List.map_cons, List.mem_cons, ih]
      tauto

theorem dictSet_keys_nodup {α β : Type} [DecidableEq α] (m : List (α × β)) (k : α) (v : β)
    (h : (m.map Prod.fst).Nodup) : ((dictSet m k v).map Prod.fst).Nodup := by
  induction m with
  | nil => simp [dictSet]
  | cons x rest ih =>
    simp only [List.map_cons, List.nodup_cons] at h
    by_cases h1 : x.1 = k
    · simp only [dictSet, h1, if_true, List.map_cons, List.nodup_cons]
      exact ⟨h1 ▸ h.1, h.2⟩
    · simp only [dictSet, h1, if_false, List.map_cons, List.nodup_cons]
      refine ⟨?_, ih h.2⟩
      rw [mem_keys_dictSet]
      rintro (hc | hc)
      · exact h.1 hc
      · exact h1 hc

/-! ### Lemmas about the catalog -/

theorem foldl_dictSet_lookup {α β : Type} [DecidableEq α] (g : α → β) :
    ∀ (files : List α) (m : List (α × β)) (f : α),
    dictGet (files.foldl (fun acc n => dictSet acc n (g n)) m) f =
      if f ∈ files then some (g f) else dictGet m f := by
  intro files
  induction files with
  | nil => intro m f; simp
  | cons n rest ih =>
    intro m f
    simp only [List.foldl_cons, ih, List.mem_cons]
    by_cases h1 : f ∈ rest
    · simp [h1]
    · by_cases h2 : f = n
      · subst h2
        simp [h1, dictGet_dictSet_self]
      · simp [h1, h2, dictGet_dictSet_ne _ _ _ _ h2]

theorem foldl_dictSet_nodup {α β : Type} [DecidableEq α] (g : α → β) :
    ∀ (files : List α) (m : List (α × β)),
    (m.map Prod.fst).Nodup →
      ((files.foldl (fun acc n => dictSet acc n (g n)) m).map Prod.fst).Nodup := by
  intro files
  induction files with
  | nil => intro m h; simpa using h
  | cons n rest ih =>
    intro m h
    exact ih _ (dictSet_keys_nodup _ _ _ h)

theorem scanTier_lookup (appsDir : Path) (appName sub : String) (files : List String)
    (m : List (String × Path)) (f : String) :
    dictGet (scanTier appsDir appName sub (some files) m) f =
      if f ∈ files then some (appsDir ++ [appName, sub, f]) else dictGet m f := by
  simpa [scanTier] using
    foldl_dictSet_lookup (fun n => appsDir ++ [appName, sub, n]) files m f

theorem app_config_map_keys_nodup (appsDir : Path) (appName : String) (dirs : AppDir) :
    ((app_config_map appsDir appName dirs).map Prod.fst).Nodup := by
  have base : ∀ (sub : String) (files : Option (List String)) (m : List (String × Path)),
      (m.map Prod.fst).Nodup → ((scanTier appsDir appName sub files m).map Prod.fst).Nodup := by
    intro sub files m h
    cases files with
    | none => simpa [scanTier] using h
    | some fs => exact foldl_dictSet_nodup _ fs m h
  exact base _ _ _ (base _ _ _ (by simp))

/-! ### String append cancellation (used for ladder-prefix disambiguation) -/

theorem strAppendRightCancel {a b c : String} (h : a ++ c = b ++ c) : a = b := by
  have hd : a.data ++ c.data = b.data ++ c.data := by
    have h2 := congrArg String.data h
    simpa using h2
  cases a with
  | mk da =>
    cases b with
    | mk db =>
      simp only [List.append_cancel_right_eq] at hd
      exact congrArg String.mk hd

theorem strAppendLeftCancel {a b c : String} (h : a ++ b = a ++ c) : b = c := by
  have hd : a.data ++ b.data = a.data ++ c.data := by
    have h2 := congrArg String.data h
    simpa using h2
  cases b with
  | mk db =>
    cases c with
    | mk dc =>
      simp only [List.append_cancel_left_eq] at hd
      exact congrArg String.mk hd

theorem exactNeSchemeWild (p s : String) (hp : p ≠ "any") :
    p ++ "-" ++ s ≠ "any-" ++ s := by
  intro h
  have h1 : (p ++ "-") ++ s = ("any" ++ "-") ++ s := h
  have h2 := strAppendRightCancel h1
  have h3 := strAppendRightCancel h2
  exact hp h3

theorem exactNePaletteWild (p s : String) (hs : s ≠ "any") :
    p ++ "-" ++ s ≠ p ++ "-any" := by
  intro h
  have h1 : (p ++ "-") ++ s = (p ++ "-") ++ "any" := by
    have hassoc : p ++ "-any" = (p ++ "-") ++ "any" := by
      apply String.ext
      simp
    rw [hassoc] at h
    exact h
  exact hs (strAppendLeftCancel h1)

/-! ### Lemmas about the matcher -/

theorem collectFileParts_ok (acm : List (String × Path))
    (h : ∀ x ∈ acm, (parseName x.1).isSome) :
    collectFileParts acm = .ok (parsedParts acm) := by
  induction acm with
  | nil => simp [collectFileParts, parsedParts]
  | cons x rest ih =>
    have hx : (parseName x.1).isSome := h x (by simp)
    obtain ⟨tc, htc⟩ := Option.isSome_iff_exists.mp hx
    have hrest : collectFileParts rest = .ok (parsedParts rest) :=
      ih (fun y hy => h y (by simp [hy]))
    simp [collectFileParts, htc, hrest, parsedParts, Except.map]

theorem matchPass_nil (pfx : String) (m : List (String × Path)) :
    matchPass [] pfx m = m := rfl

theorem matchPass_cons (fp : String × String × Path) (rest : List (String × String × Path))
    (pfx : String) (m : List (String × Path)) :
    matchPass (fp :: rest) pfx m =
      matchPass rest pfx (if fp.1 = pfx then dictSet m fp.2.1 fp.2.2 else m) := by
  simp [matchPass]

theorem matchPass_lookup_not (pfx n : String) :
    ∀ (fps : List (String × String × Path)) (m : List (String × Path)),
    (∀ fp ∈ fps, ¬(fp.1 = pfx ∧ fp.2.1 = n)) →
    dictGet (matchPass fps pfx m) n = dictGet m n := by
  intro fps
  induction fps with
  | nil => intro m _; rfl
  | cons fp rest ih =>
    intro m hn
    have hrest : ∀ x ∈ rest, ¬(x.1 = pfx ∧ x.2.1 = n) := fun x hx => hn x (by simp [hx])
    rw [matchPass_cons]
    by_cases h1 : fp.1 = pfx
    · have h2 : fp.2.1 ≠ n := fun hc => hn fp (by simp) ⟨h1, hc⟩
      rw [ih _ hrest]
      simp only [h1, if_true]
      exact dictGet_dictSet_ne _ _ _ _ (Ne.symm h2)
    · rw [ih _ hrest]
      simp [h1]

theorem matchPass_lookup_match (pfx n : String) :
    ∀ (fps : List (String × String × Path)) (m : List (String × Path)),
    (∃ fp ∈ fps, fp.1 = pfx ∧ fp.2.1 = n) →
    ∃ fp ∈ fps, fp.1 = pfx ∧ fp.2.1 = n ∧
      dictGet (matchPass fps pfx m) n = some fp.2.2 := by
  intro fps
  induction fps with
  | nil => intro m he; simp at he
  | cons x rest ih =>
    intro m he
    rw [matchPass_cons]
    by_cases hrest : ∃ fp ∈ rest, fp.1 = pfx ∧ fp.2.1 = n
    · obtain ⟨fp, hfp, h1, h2, h3⟩ :=
        ih (if x.1 = pfx then dictSet m x.2.1 x.2.2 else m) hrest
      exact ⟨fp, by simp [hfp], h1, h2, h3⟩
    · have hx : x.1 = pfx ∧ x.2.1 = n := by
        obtain ⟨fp, hfp, hp⟩ := he
        rcases List.mem_cons.mp hfp with h | h
        · exact h ▸ hp
        · exact absurd ⟨fp, h, hp⟩ hrest
      have hnone : ∀ fp ∈ rest, ¬(fp.1 = pfx ∧ fp.2.1 = n) := by
        intro fp hfp hc
        exact hrest ⟨fp, hfp, hc⟩
      refine ⟨x, by simp, hx.1, hx.2, ?_⟩
      rw [matchPass_lookup_not pfx n rest _ hnone]
      simp only [hx.1, if_true]
      rw [hx.2, dictGet_dictSet_self]

theorem mem_parsedParts (acm : List (String × Path)) (fp : String × String × Path) :
    fp ∈ parsedParts acm ↔ ∃ x ∈ acm, parseName x.1 = some (fp.1, fp.2.1) ∧ fp.2.2 = x.2 := by
  simp only [parsedParts, List.mem_filterMap, Option.map_eq_some']
  constructor
  · rintro ⟨x, hx, tc, htc, hval⟩
    refine ⟨x, hx, ?_, ?_⟩
    · rw [htc, ← hval]
    · rw [← hval]
  · rintro ⟨x, hx, hpn, hval⟩
    refine ⟨x, hx, (fp.1, fp.2.1), hpn, ?_⟩
    simp [← hval]

/-- C1: for every candidate set whose filenames are well formed and every
requested concrete `(palette, scheme)`, the matcher resolves each logical
name to the most specific present prefix under the ladder
`any-any < any-scheme < palette-any < palette-scheme`: an exact
`palette-scheme` candidate is always selected, and when only `any-scheme`
and `palette-any` candidates exist for a logical name, `palette-any` is
selected. -/
theorem claim_C1_specificity (appsDir : Path) (appName : String) (dirs : AppDir)
    (palette scheme n : String)
    (hp1 : palette ≠ "any") (hp2 : palette ≠ "auto")
    (hs1 : scheme ≠ "any") (hs2 : scheme ≠ "auto")
    (hw : ∀ x ∈ app_config_map appsDir appName dirs, (parseName x.1).isSome) :
    ∃ m, get_matching_configs appsDir appName dirs scheme palette = .ok m ∧
      ((∃ x ∈ app_config_map appsDir appName dirs,
          parseName x.1 = some (palette ++ "-" ++ scheme, n)) →
        ∃ x ∈ app_config_map appsDir appName dirs,
          parseName x.1 = some (palette ++ "-" ++ scheme, n) ∧ dictGet m n = some x.2) ∧
      (((∀ x ∈ app_config_map appsDir appName dirs, ∀ c, parseName x.1 = some (c, n) →
            c = "any-" ++ scheme ∨ c = palette ++ "-any") ∧
        (∃ x ∈ app_config_map appsDir appName dirs,
            parseName x.1 = some (palette ++ "-any", n))) →
        ∃ x ∈ app_config_map appsDir appName dirs,
          parseName x.1 = some (palette ++ "-any", n) ∧ dictGet m n = some x.2) := by
  set acm := app_config_map appsDir appName dirs with hacm
  have hcoll := collectFileParts_ok acm hw
  set fps := parsedParts acm with hfps
  have hres : get_matching_configs appsDir appName dirs scheme palette =
      .ok (matchPass fps (palette ++ "-" ++ scheme)
            (matchPass fps (palette ++ "-any")
              (matchPass fps ("any-" ++ scheme)
                (matchPass fps "any-any" [])))) := by
    simp [get_matching_configs, resolve_scheme, resolve_palette, hs2, hp2, ← hacm, hcoll,
      Except.map, theme_prefix_list]
  refine ⟨_, hres, ?_, ?_⟩
  · rintro ⟨x, hx, hpn⟩
    have hfp : (palette ++ "-" ++ scheme, n, x.2) ∈ fps := by
      rw [hfps, mem_parsedParts]
      exact ⟨x, hx, hpn, rfl⟩
    obtain ⟨fp, hfpmem, h1, h2, h3⟩ :=
      matchPass_lookup_match (palette ++ "-" ++ scheme) n fps _ ⟨_, hfp, rfl, rfl⟩
    rw [hfps, mem_parsedParts] at hfpmem
    obtain ⟨y, hy, hypn, hyval⟩ := hfpmem
    refine ⟨y, hy, ?_, ?_⟩
    · rw [hypn, h1, h2]
    · rw [h3, hyval]
  · rintro ⟨honly, x, hx, hpn⟩
    have hnot4 : ∀ fp ∈ fps, ¬(fp.1 = palette ++ "-" ++ scheme ∧ fp.2.1 = n) := by
      rintro fp hfp ⟨h1, h2⟩
      rw [hfps, mem_parsedParts] at hfp
      obtain ⟨y, hy, hypn, _⟩ := hfp
      rcases honly y hy fp.1 (h2 ▸ hypn) with hc | hc
      · exact exactNeSchemeWild palette scheme hp1 (h1 ▸ hc)
      · exact exactNePaletteWild palette scheme hs1 (h1 ▸ hc)
    have hfp : (palette ++ "-any", n, x.2) ∈ fps := by
      rw [hfps, mem_parsedParts]
      exact ⟨x, hx, hpn, rfl⟩
    obtain ⟨fp, hfpmem, h1, h2, h3⟩ :=
      matchPass_lookup_match (palette ++ "-any") n fps
        (matchPass fps ("any-" ++ scheme) (matchPass fps "any-any" []))
        ⟨_, hfp, rfl, rfl⟩
    rw [hfps, mem_parsedParts] at hfpmem
    obtain ⟨y, hy, hypn, hyval⟩ := hfpmem
    refine ⟨y, hy, ?_, ?_⟩
    · rw [hypn, h1, h2]
    · rw [matchPass_lookup_not (palette ++ "-" ++ scheme) n fps _ hnot4, h3, hyval]

/-- Witness for C1: a catalog holding an exact candidate for `a.ini` and only
`any-light` and `dark-any` candidates for `b.ini`; the tie-break picks
`dark-any` for `b.ini`. -/
theorem claim_C1_specificity_witness :
    ∃ m, get_matching_configs ["apps"] "app"
        ⟨some ["dark-light.a.ini", "any-light.b.ini", "dark-any.b.ini"], none, none⟩
        "light" "dark" = .ok m ∧
      dictGet m "b.ini" = some ["apps", "app", "generated", "dark-any.b.ini"] := by
  have hmap : app_config_map ["apps"] "app"
      ⟨some ["dark-light.a.ini", "any-light.b.ini", "dark-any.b.ini"], none, none⟩ =
      [("dark-light.a.ini", ["apps", "app", "generated", "dark-light.a.ini"]),
       ("any-light.b.ini", ["apps", "app", "generated", "any-light.b.ini"]),
       ("dark-any.b.ini", ["apps", "app", "generated", "dark-any.b.ini"])] := by decide
  obtain ⟨m, hok, _, hb⟩ := claim_C1_specificity ["apps"] "app"
    ⟨some ["dark-light.a.ini", "any-light.b.ini", "dark-any.b.ini"], none, none⟩
    "dark" "light" "b.ini" (by decide) (by decide) (by decide) (by decide) (by decide)
  have honly : ∀ x ∈ app_config_map ["apps"] "app"
        ⟨some ["dark-light.a.ini", "any-light.b.ini", "dark-any.b.ini"], none, none⟩,
      ∀ c, parseName x.1 = some (c, "b.ini") →
        c = "any-" ++ "light" ∨ c = "dark" ++ "-any" := by
    rw [hmap]
    intro x hx c hpc
    simp only [List.mem_cons, List.not_mem_nil, or_false] at hx
    rcases hx with hx | hx | hx
    · rw [hx] at hpc
      rw [(by decide : parseName "dark-light.a.ini" = some ("dark-light", "a.ini"))] at hpc
      have h := Option.some.inj hpc
      rw [Prod.mk.injEq] at h
      exact absurd h.2 (by decide)
    · rw [hx] at hpc
      rw [(by decide : parseName "any-light.b.ini" = some ("any-light", "b.ini"))] at hpc
      have h := Option.some.inj hpc
      rw [Prod.mk.injEq] at h
      left
      rw [← h.1]
      decide
    · rw [hx] at hpc
      rw [(by decide : parseName "dark-any.b.ini" = some ("dark-any", "b.ini"))] at hpc
      have h := Option.some.inj hpc
      rw [Prod.mk.injEq] at h
      right
      rw [← h.1]
      decide
  obtain ⟨y, hy, hypn, hyget⟩ := hb ⟨honly,
    ("dark-any.b.ini", ["apps", "app", "generated", "dark-any.b.ini"]), by decide, by decide⟩
  rw [hmap] at hy
  simp only [List.mem_cons, List.not_mem_nil, or_false] at hy
  rcases hy with hy | hy | hy
  · rw [hy] at hypn
    exact absurd hypn (by decide)
  · rw [hy] at hypn
    exact absurd hypn (by decide)
  · rw [hy] at hyget
    exact ⟨m, hok, hyget⟩

/-- C5 counterexample: with `generated/any-any.conf.ini` and
`user/dark-any.conf.ini` the catalog keeps two distinct entries whose
logical name is the same `conf.ini`, refuting "at most one path per logical
name": the catalog deduplicates by full filename, not by logical name. -/
theorem claim_C5_counterexample :
    ∃ x ∈ app_config_map ["apps"] "app"
        ⟨some ["any-any.conf.ini"], some ["dark-any.conf.ini"], none⟩,
    ∃ y ∈ app_config_map ["apps"] "app"
        ⟨some ["any-any.conf.ini"], some ["dark-any.conf.ini"], none⟩,
      x ≠ y ∧ (parseName x.1).map Prod.snd = some "conf.ini" ∧
        (parseName y.1).map Prod.snd = some "conf.ini" := by decide

/-- C5 (amended): the catalog keeps at most one path per full filename and,
for each filename, returns the `user`-tier path when the `user` tier holds a
file of that name, else the `generated`-tier path; in particular an
identical filename in both tiers resolves to the `user` tier. -/
theorem claim_C5_filename_override (appsDir : Path) (appName : String)
    (gen usr : List String) (cd : Option (List String)) (f : String) :
    ((app_config_map appsDir appName ⟨some gen, some usr, cd⟩).map Prod.fst).Nodup ∧
    dictGet (app_config_map appsDir appName ⟨some gen, some usr, cd⟩) f =
      (if f ∈ usr then some (appsDir ++ [appName, "user", f])
       else if f ∈ gen then some (appsDir ++ [appName, "generated", f]) else none) := by
  refine ⟨app_config_map_keys_nodup _ _ _, ?_⟩
  show dictGet (scanTier appsDir appName "user" (some usr)
      (scanTier appsDir appName "generated" (some gen) [])) f = _
  rw [scanTier_lookup, scanTier_lookup]
  rfl

/-- C7: a candidate filename with fewer than two dot-separated components is
not skipped with a diagnostic: the diagnostic print references the
undefined variable `filename`, so resolution raises `NameError` and the
remaining well-formed candidates are not resolved (a slip: the surrounding
`continue` shows skipping was the intent). -/
theorem claim_C7_malformed_crash :
    get_matching_configs ["apps"] "app" ⟨some ["noext", "any-any.conf.ini"], none, none⟩
      "light" "dark" = .error "NameError: name filename is not defined" := rfl

/-! ### Basic lemmas about the filesystem model and the executor -/

theorem pexists_of_lookup_file (fs : Fs) (p : Path) (c : String)
    (h : fs.lookup p = some (.file c)) : fs.pexists p = true := by
  show existsFuel fs (fs.entries.length + 1) p = true
  rw [existsFuel, h]

theorem pexists_of_lookup_none (fs : Fs) (p : Path) (h : fs.lookup p = none) :
    fs.pexists p = decide (p ∈ fs.dirs) := by
  show existsFuel fs (fs.entries.length + 1) p = _
  rw [existsFuel, h]

theorem isSymlink_eq (fs : Fs) (p : Path) :
    fs.isSymlink p = match fs.lookup p with | some (.symlink _) => true | _ => false := rfl

/-- The foreign-file precondition of the executor equals `blockedAt`. -/
theorem foreignCond (fs : Fs) (p : Path) :
    (fs.pexists p && !(fs.isSymlink p)) = blockedAt fs p := by
  cases h : fs.lookup p with
  | none =>
    rw [pexists_of_lookup_none fs p h]
    simp [Fs.isSymlink, h, blockedAt]
  | some e =>
    cases e with
    | file c =>
      rw [pexists_of_lookup_file fs p c h]
      simp [Fs.isSymlink, h, blockedAt]
    | symlink t =>
      simp [Fs.isSymlink, h, blockedAt]

theorem lookup_linkAt (fs : Fs) (op : Path × Path) (q : Path) :
    (linkAt fs op).lookup q =
      if q = op.1 then some (.symlink op.2) else fs.lookup q := by
  by_cases h : q = op.1
  · subst h
    simp [linkAt, Fs.symlinkTo, Fs.unlinkP, Fs.lookup, dictGet_dictSet_self]
  · simp only [linkAt, Fs.symlinkTo, Fs.unlinkP, Fs.lookup, h, if_false]
    rw [dictGet_dictSet_ne _ _ _ _ h, dictGet_dictRemove_ne _ _ _ h]

theorem linkAt_dirs (fs : Fs) (op : Path × Path) : (linkAt fs op).dirs = fs.dirs := rfl

theorem fsAfter_dirs (fs : Fs) (ops : List (Path × Path)) : (fsAfter fs ops).dirs = fs.dirs := by
  have base : ∀ (l : List (Path × Path)) (acc : Fs),
      (l.foldl (fun a op => if opDecision fs op then linkAt a op else a) acc).dirs = acc.dirs := by
    intro l
    induction l with
    | nil => intro acc; rfl
    | cons op rest ih =>
      intro acc
      rw [List.foldl_cons, ih]
      by_cases h : opDecision fs op
      · simp [h, linkAt_dirs]
      · simp [h]
  exact base ops fs

/-- The relation `blockedAt` depends only on the entry at the path and the directory set,
so linking a different path leaves it unchanged. -/
theorem blockedAt_linkAt_ne (fs : Fs) (op : Path × Path) (q : Path) (h : q ≠ op.1) :
    blockedAt (linkAt fs op) q = blockedAt fs q := by
  simp only [blockedAt, Fs.lookup]
  rw [show dictGet (linkAt fs op).entries q = (linkAt fs op).lookup q from rfl,
    lookup_linkAt fs op q]
  simp [h, Fs.lookup, linkAt_dirs]

theorem runScripts_nil (env : Path → Bool) (st : RunState) : runScripts env st [] = st := rfl

/-- A run through a non-empty matched script list executes exactly the first
script and raises: `CalledProcessError` when the script fails,
`AttributeError` from the captured-output print when it succeeds. -/
theorem runScripts_cons (env : Path → Bool) (st : RunState) (s : Path) (rest : List Path) :
    runScripts env st (s :: rest) =
      if env s then { st with scripts := st.scripts ++ [s], error := some "AttributeError: Style has no attribute RESET" }
      else { st with scripts := st.scripts ++ [s], error := some "CalledProcessError" } := by
  rw [runScripts]

/-- The filesystem and both outcome lists are never touched by the script
block, whatever the scripts do. -/
theorem runScripts_frame (env : Path → Bool) :
    ∀ (l : List Path) (st : RunState),
      (runScripts env st l).fs = st.fs ∧ (runScripts env st l).succ = st.succ ∧
        (runScripts env st l).fail = st.fail := by
  intro l st
  cases l with
  | nil => exact ⟨rfl, rfl, rfl⟩
  | cons s rest =>
    rw [runScripts_cons]
    by_cases hs : env s
    · rw [if_pos hs]
      exact ⟨rfl, rfl, rfl⟩
    · rw [if_neg hs]
      exact ⟨rfl, rfl, rfl⟩

theorem runOps_nil (so : Option (List Path)) (env : Path → Bool) (st : RunState) :
    runOps so env st [] = st := rfl

theorem runOps_cons (so : Option (List Path)) (env : Path → Bool) (st : RunState)
    (op : Path × Path) (rest : List (Path × Path)) :
    runOps so env st (op :: rest) =
      if st.error.isSome then st else runOps so env (runOp so env st op) rest := rfl

theorem runOps_error (so : Option (List Path)) (env : Path → Bool) (st : RunState)
    (ops : List (Path × Path)) (h : st.error.isSome) : runOps so env st ops = st := by
  cases ops with
  | nil => rfl
  | cons op rest => rw [runOps_cons, if_pos h]

theorem runOp_fail (so : Option (List Path)) (env : Path → Bool) (st : RunState)
    (op : Path × Path) (h : opDecision st.fs op = false) :
    runOp so env st op = { st with fail := st.fail ++ [op] } := by
  unfold runOp
  rw [show (st.fs.pexists op.1 && !(st.fs.isSymlink op.1)) = blockedAt st.fs op.1 from
    foreignCond st.fs op.1]
  unfold opDecision at h
  cases hA : st.fs.pexists op.2 with
  | false => simp [hA]
  | true =>
    cases hB : st.fs.pexists (parentPath op.1) with
    | false => simp [hA, hB]
    | true =>
      cases hC : blockedAt st.fs op.1 with
      | false => rw [hA, hB, hC] at h; simp at h
      | true => simp [hA, hB, hC]

theorem runOp_succ_some (env : Path → Bool) (st : RunState) (op : Path × Path)
    (M : List Path) (h : opDecision st.fs op = true) :
    runOp (some M) env st op =
      runScripts env { st with fs := linkAt st.fs op, succ := st.succ ++ [op] } M := by
  unfold runOp
  rw [show (st.fs.pexists op.1 && !(st.fs.isSymlink op.1)) = blockedAt st.fs op.1 from
    foreignCond st.fs op.1]
  unfold opDecision at h
  cases hA : st.fs.pexists op.2 with
  | false => rw [hA] at h; simp at h
  | true =>
    cases hB : st.fs.pexists (parentPath op.1) with
    | false => rw [hA, hB] at h; simp at h
    | true =>
      cases hC : blockedAt st.fs op.1 with
      | true => rw [hA, hB, hC] at h; simp at h
      | false => simp [hA, hB, hC, linkAt]

theorem runOp_succ_none (env : Path → Bool) (st : RunState) (op : Path × Path)
    (h : opDecision st.fs op = true) :
    runOp none env st op =
      { st with fs := linkAt st.fs op, succ := st.succ ++ [op],
                error := some "TypeError: NoneType object is not iterable" } := by
  unfold runOp
  rw [show (st.fs.pexists op.1 && !(st.fs.isSymlink op.1)) = blockedAt st.fs op.1 from
    foreignCond st.fs op.1]
  unfold opDecision at h
  cases hA : st.fs.pexists op.2 with
  | false => rw [hA] at h; simp at h
  | true =>
    cases hB : st.fs.pexists (parentPath op.1) with
    | false => rw [hA, hB] at h; simp at h
    | true =>
      cases hC : blockedAt st.fs op.1 with
      | true => rw [hA, hB, hC] at h; simp at h
      | false => simp [hA, hB, hC, linkAt]

/-! ### Preservation of regular files (claim C2) -/

theorem opDecision_parts (fs : Fs) (op : Path × Path) (h : opDecision fs op = true) :
    fs.pexists op.2 = true ∧ fs.pexists (parentPath op.1) = true ∧
      blockedAt fs op.1 = false := by
  simp only [opDecision, Bool.and_eq_true, Bool.not_eq_true'] at h
  exact ⟨h.1.1, h.1.2, h.2⟩

theorem blockedAt_file (fs : Fs) (p : Path) (c : String)
    (h : fs.lookup p = some (.file c)) : blockedAt fs p = true := by
  simp [blockedAt, h]

theorem runOp_file_preserved (so : Option (List Path)) (env : Path → Bool)
    (st : RunState) (op : Path × Path) (p : Path) (c : String)
    (h : st.fs.lookup p = some (.file c)) :
    (runOp so env st op).fs.lookup p = some (.file c) := by
  by_cases hd : opDecision st.fs op = true
  · have hparts := opDecision_parts st.fs op hd
    have hne : p ≠ op.1 := by
      intro hc
      rw [hc] at h
      rw [blockedAt_file st.fs op.1 c h] at hparts
      exact Bool.true_eq_false.mp hparts.2.2
    cases so with
    | none =>
      rw [runOp_succ_none env st op hd]
      show (linkAt st.fs op).lookup p = some (FsEntry.file c)
      rw [lookup_linkAt, if_neg hne]
      exact h
    | some M =>
      rw [runOp_succ_some env st op M hd]
      rw [(runScripts_frame env M _).1]
      show (linkAt st.fs op).lookup p = some (FsEntry.file c)
      rw [lookup_linkAt, if_neg hne]
      exact h
  · have hd2 : opDecision st.fs op = false := by simpa using hd
    rw [runOp_fail so env st op hd2]
    exact h

theorem runOps_file_preserved (so : Option (List Path)) (env : Path → Bool) :
    ∀ (ops : List (Path × Path)) (st : RunState) (p : Path) (c : String),
      st.fs.lookup p = some (.file c) →
      (runOps so env st ops).fs.lookup p = some (.file c) := by
  intro ops
  induction ops with
  | nil => intro st p c h; exact h
  | cons op rest ih =>
    intro st p c h
    rw [runOps_cons]
    by_cases he : st.error.isSome
    · rw [if_pos he]; exact h
    · rw [if_neg he]
      exact ih _ _ _ (runOp_file_preserved so env st op p c h)

theorem runOp_fail_mono (so : Option (List Path)) (env : Path → Bool)
    (st : RunState) (op x : Path × Path) (h : x ∈ st.fail) :
    x ∈ (runOp so env st op).fail := by
  by_cases hd : opDecision st.fs op = true
  · cases so with
    | none =>
      rw [runOp_succ_none env st op hd]
      exact h
    | some M =>
      rw [runOp_succ_some env st op M hd]
      rw [(runScripts_frame env M _).2.2]
      exact h
  · have hd2 : opDecision st.fs op = false := by simpa using hd
    rw [runOp_fail so env st op hd2]
    simp only [List.mem_append]
    exact Or.inl h

theorem runOps_fail_mono (so : Option (List Path)) (env : Path → Bool) :
    ∀ (ops : List (Path × Path)) (st : RunState) (x : Path × Path),
      x ∈ st.fail → x ∈ (runOps so env st ops).fail := by
  intro ops
  induction ops with
  | nil => intro st x h; exact h
  | cons op rest ih =>
    intro st x h
    rw [runOps_cons]
    by_cases he : st.error.isSome
    · rw [if_pos he]; exact h
    · rw [if_neg he]
      exact ih _ _ (runOp_fail_mono so env st op x h)

theorem runOps_file_recorded (so : Option (List Path)) (env : Path → Bool) :
    ∀ (ops : List (Path × Path)) (st : RunState) (p : Path) (c : String),
      st.fs.lookup p = some (.file c) →
      (runOps so env st ops).error = none →
      ∀ op ∈ ops, op.1 = p → op ∈ (runOps so env st ops).fail := by
  intro ops
  induction ops with
  | nil => intro st p c _ _ op hop; simp at hop
  | cons op2 rest ih =>
    intro st p c h herr op hop hfrom
    rw [runOps_cons] at herr ⊢
    by_cases he : st.error.isSome
    · rw [if_pos he] at herr
      rw [herr] at he
      simp at he
    · rw [if_neg he] at herr ⊢
      rcases List.mem_cons.mp hop with hop | hop
      · subst hop
        have hblocked : blockedAt st.fs op.1 = true := by
          rw [hfrom]
          exact blockedAt_file st.fs p c h
        have hd : opDecision st.fs op = false := by
          simp [opDecision, hblocked]
        have hmem : op ∈ (runOp so env st op).fail := by
          rw [runOp_fail so env st op hd]
          simp
        exact runOps_fail_mono so env rest _ op hmem
      · exact ih _ _ _ (runOp_file_preserved so env st op2 p c h) herr op hop hfrom

/-- C2 (amended): a regular file at a link location is never deleted or
overwritten by the executor, under every outcome including mid-run aborts;
and provided the run completes without an exception — a prior successful
link aborts it whenever the `call/` directory is missing (`TypeError`, C10)
or any script was matched (`CalledProcessError` if the script fails, the
`Style.RESET` `AttributeError` if it succeeds) — every operation whose
`from_path` holds that regular file is recorded in the failure list (the
foreign-file check, after the artifact and parent checks, guarantees it can
never be applied). -/
theorem claim_C2_foreign_file_safety (so : Option (List Path)) (env : Path → Bool)
    (fs0 : Fs) (ops : List (Path × Path)) (p : Path) (c : String)
    (hfile : fs0.lookup p = some (.file c)) :
    (applyOps so env fs0 ops).fs.lookup p = some (.file c) ∧
      ((applyOps so env fs0 ops).error = none →
        ∀ op ∈ ops, op.1 = p → op ∈ (applyOps so env fs0 ops).fail) := by
  constructor
  · exact runOps_file_preserved so env ops _ p c hfile
  · intro herr
    exact runOps_file_recorded so env ops _ p c hfile herr

/-- Witness for C2 (amended): a concrete run with one foreign-file operation;
the file survives and the operation is recorded as failed. -/
theorem claim_C2_foreign_file_safety_witness :
    (applyOps (some []) (fun _ => true)
        ⟨[(["apps", "x"], .file "a"), (["tgt", "c"], .file "precious")], [["tgt"]]⟩
        [(["tgt", "c"], ["apps", "x"])]).fs.lookup ["tgt", "c"] =
      some (.file "precious") ∧
    ((applyOps (some []) (fun _ => true)
        ⟨[(["apps", "x"], .file "a"), (["tgt", "c"], .file "precious")], [["tgt"]]⟩
        [(["tgt", "c"], ["apps", "x"])]).error = none →
      ∀ op ∈ [((["tgt", "c"] : Path), (["apps", "x"] : Path))], op.1 = ["tgt", "c"] →
        op ∈ (applyOps (some []) (fun _ => true)
          ⟨[(["apps", "x"], .file "a"), (["tgt", "c"], .file "precious")], [["tgt"]]⟩
          [(["tgt", "c"], ["apps", "x"])]).fail) :=
  claim_C2_foreign_file_safety (some []) (fun _ => true)
    ⟨[(["apps", "x"], .file "a"), (["tgt", "c"], .file "precious")], [["tgt"]]⟩
    [(["tgt", "c"], ["apps", "x"])] ["tgt", "c"] "precious" (by decide)

/-- C2 counterexample: when the `call/` directory is missing, a successful
link earlier in the list aborts the run (C10's `TypeError`), so a later
operation whose `from_path` is a regular file is never recorded as failed —
refuting the claim as stated — although the file itself is still untouched. -/
theorem claim_C2_counterexample :
    (applyOps none (fun _ => true)
        ⟨[(["apps", "x"], .file "a"), (["tgt", "b"], .file "precious")], [["tgt"]]⟩
        [(["tgt", "a"], ["apps", "x"]), (["tgt", "b"], ["apps", "x"])]).fail = [] ∧
    (["tgt", "b"], ["apps", "x"]) ∉ (applyOps none (fun _ => true)
        ⟨[(["apps", "x"], .file "a"), (["tgt", "b"], .file "precious")], [["tgt"]]⟩
        [(["tgt", "a"], ["apps", "x"]), (["tgt", "b"], ["apps", "x"])]).fail ∧
    (applyOps none (fun _ => true)
        ⟨[(["apps", "x"], .file "a"), (["tgt", "b"], .file "precious")], [["tgt"]]⟩
        [(["tgt", "a"], ["apps", "x"]), (["tgt", "b"], ["apps", "x"])]).fs.lookup ["tgt", "b"] =
      some (.file "precious") ∧
    (applyOps none (fun _ => true)
        ⟨[(["apps", "x"], .file "a"), (["tgt", "b"], .file "precious")], [["tgt"]]⟩
        [(["tgt", "a"], ["apps", "x"]), (["tgt", "b"], ["apps", "x"])]).error.isSome := by
  decide

/-! ### Partition of the operation list (claim C4) -/

theorem runOps_partition (env : Path → Bool) :
    ∀ (ops : List (Path × Path)) (st : RunState), st.error = none →
      (runOps (some []) env st ops).error = none ∧
      ∀ x, List.count x (runOps (some []) env st ops).succ +
          List.count x (runOps (some []) env st ops).fail =
        List.count x st.succ + List.count x st.fail + List.count x ops := by
  intro ops
  induction ops with
  | nil =>
    intro st herr
    refine ⟨herr, fun x => ?_⟩
    simp [runOps_nil]
  | cons op rest ih =>
    intro st herr
    rw [runOps_cons, if_neg (by simp [herr])]
    by_cases hd : opDecision st.fs op = true
    · rw [runOp_succ_some env st op [] hd, runScripts_nil]
      obtain ⟨herr2, hcount⟩ := ih { st with fs := linkAt st.fs op, succ := st.succ ++ [op] } herr
      refine ⟨herr2, fun x => ?_⟩
      rw [hcount x]
      simp [List.count_append, List.count_cons]
      omega
    · have hd2 : opDecision st.fs op = false := by simpa using hd
      rw [runOp_fail (some []) env st op hd2]
      obtain ⟨herr2, hcount⟩ := ih { st with fail := st.fail ++ [op] } herr
      refine ⟨herr2, fun x => ?_⟩
      rw [hcount x]
      simp [List.count_append, List.count_cons]
      omega

/-- C4 (amended): provided the application's `call/` directory exists and no
script in it matches the requested palette and scheme (the matched list is
empty — with a matched script, the first success aborts the run: a failing
script raises `CalledProcessError` and even a successful one is followed by
the `AttributeError` of the `Style.RESET` print), `apply` never raises, no
operation's failure aborts the remaining operations, and the succeeded and
failed lists are an exact partition of the original operation list (counted
with multiplicity). -/
theorem claim_C4_apply_partition (appsDir : Path) (appName : String)
    (files : List String) (scheme palette : String) (env : Path → Bool) (fs0 : Fs)
    (ops : List (Path × Path))
    (_hM : get_matching_scripts appsDir appName (some files) scheme palette = some []) :
    (applyOps (some []) env fs0 ops).error = none ∧
    ∀ x, List.count x (applyOps (some []) env fs0 ops).succ +
        List.count x (applyOps (some []) env fs0 ops).fail = List.count x ops := by
  obtain ⟨herr, hcount⟩ := runOps_partition env ops ⟨fs0, [], [], [], none⟩ rfl
  refine ⟨herr, fun x => ?_⟩
  rw [show applyOps (some []) env fs0 ops = runOps (some []) env ⟨fs0, [], [], [], none⟩ ops
    from rfl, hcount x]
  simp

/-- Witness for C4 (amended): a two-operation run (one success, one
foreign-file failure) with an existing `call/` directory matching no script,
partitioning exactly. -/
theorem claim_C4_apply_partition_witness :
    (applyOps (some []) (fun _ => true)
        ⟨[(["apps", "x"], .file "a"), (["tgt", "b"], .file "busy")], [["tgt"]]⟩
        [(["tgt", "a"], ["apps", "x"]), (["tgt", "b"], ["apps", "x"])]).error = none ∧
    ∀ x, List.count x (applyOps (some []) (fun _ => true)
        ⟨[(["apps", "x"], .file "a"), (["tgt", "b"], .file "busy")], [["tgt"]]⟩
        [(["tgt", "a"], ["apps", "x"]), (["tgt", "b"], ["apps", "x"])]).succ +
      List.count x (applyOps (some []) (fun _ => true)
        ⟨[(["apps", "x"], .file "a"), (["tgt", "b"], .file "busy")], [["tgt"]]⟩
        [(["tgt", "a"], ["apps", "x"]), (["tgt", "b"], ["apps", "x"])]).fail =
      List.count x [((["tgt", "a"] : Path), (["apps", "x"] : Path)), (["tgt", "b"], ["apps", "x"])] :=
  claim_C4_apply_partition ["apps"] "app" ["other.sh"] "light" "dark" (fun _ => true)
    ⟨[(["apps", "x"], .file "a"), (["tgt", "b"], .file "busy")], [["tgt"]]⟩
    [(["tgt", "a"], ["apps", "x"]), (["tgt", "b"], ["apps", "x"])] (by decide)

/-- C4 counterexample: with a missing `call/` directory the first success
raises (`TypeError`), the run aborts and the returned lists are not a
partition of the original operations — the second operation is in neither
list. -/
theorem claim_C4_counterexample :
    (applyOps none (fun _ => true)
        ⟨[(["apps", "x"], .file "a")], [["tgt"]]⟩
        [(["tgt", "a"], ["apps", "x"]), (["tgt", "b"], ["apps", "x"])]).error.isSome ∧
    (applyOps none (fun _ => true)
        ⟨[(["apps", "x"], .file "a")], [["tgt"]]⟩
        [(["tgt", "a"], ["apps", "x"]), (["tgt", "b"], ["apps", "x"])]).succ.length +
      (applyOps none (fun _ => true)
        ⟨[(["apps", "x"], .file "a")], [["tgt"]]⟩
        [(["tgt", "a"], ["apps", "x"]), (["tgt", "b"], ["apps", "x"])]).fail.length ≠ 2 := by
  decide

/-! ### Script execution per successful link (claims C9, C10) -/

/-- Any run appends at most one script to the trace: the first script
executed aborts the run (a failing script via `CalledProcessError`, a
successful one via the `AttributeError` of the `Style.RESET` print), and the
aborted run processes no further operations. -/
theorem runOps_scripts_cases (so : Option (List Path)) (env : Path → Bool) :
    ∀ (ops : List (Path × Path)) (st : RunState),
      (runOps so env st ops).scripts = st.scripts ∨
      ∃ s, (runOps so env st ops).scripts = st.scripts ++ [s] := by
  intro ops
  induction ops with
  | nil =>
    intro st
    exact Or.inl rfl
  | cons op rest ih =>
    intro st
    rw [runOps_cons]
    by_cases he : st.error.isSome
    · rw [if_pos he]
      exact Or.inl rfl
    · rw [if_neg he]
      by_cases hd : opDecision st.fs op = true
      · cases so with
        | none =>
          rw [runOp_succ_none env st op hd]
          rw [runOps_error none env _ rest (by simp)]
          exact Or.inl rfl
        | some M =>
          rw [runOp_succ_some env st op M hd]
          cases M with
          | nil =>
            rw [runScripts_nil]
            exact ih { st with fs := linkAt st.fs op, succ := st.succ ++ [op] }
          | cons s0 Mrest =>
            rw [runScripts_cons]
            by_cases hs : env s0
            · rw [if_pos hs]
              rw [runOps_error (some (s0 :: Mrest)) env { st with fs := linkAt st.fs op, succ := st.succ ++ [op], scripts := st.scripts ++ [s0], error := some "AttributeError: Style has no attribute RESET" } rest (by simp)]
              exact Or.inr ⟨s0, rfl⟩
            · rw [if_neg hs]
              rw [runOps_error (some (s0 :: Mrest)) env { st with fs := linkAt st.fs op, succ := st.succ ++ [op], scripts := st.scripts ++ [s0], error := some "CalledProcessError" } rest (by simp)]
              exact Or.inr ⟨s0, rfl⟩
      · have hd2 : opDecision st.fs op = false := by simpa using hd
        rw [runOp_fail so env st op hd2]
        exact ih { st with fail := st.fail ++ [op] }

theorem applyOps_scripts_count (so : Option (List Path)) (env : Path → Bool)
    (fs0 : Fs) (ops : List (Path × Path)) (s : Path) :
    List.count s (applyOps so env fs0 ops).scripts ≤ 1 := by
  rcases runOps_scripts_cases so env ops ⟨fs0, [], [], [], none⟩ with h | ⟨s0, h⟩
  · rw [show applyOps so env fs0 ops = runOps so env ⟨fs0, [], [], [], none⟩ ops from rfl, h]
    simp
  · rw [show applyOps so env fs0 ops = runOps so env ⟨fs0, [], [], [], none⟩ ops from rfl, h]
    show List.count s ([] ++ [s0]) ≤ 1
    rw [List.nil_append, List.count_cons]
    simp [List.count_nil]
    split
    · omega
    · omega

theorem update_ran_inv (appsDir : Path) (appName : String) (dirs : AppDir)
    (settings : AppSettings) (env : Path → Bool) (scheme palette : String)
    (fs0 : Fs) (st : RunState)
    (h : update_app_config appsDir appName dirs settings env scheme palette fs0 = .ran st) :
    ∃ ops, st = applyOps (get_matching_scripts appsDir appName dirs.callDir scheme palette)
      env fs0 ops := by
  unfold update_app_config at h
  by_cases hb : (settings.config_dir.isSome && settings.config_map.isSome) = true
  · rw [if_pos hb] at h
    exact absurd h (by simp)
  · rw [if_neg hb] at h
    cases hg : get_matching_configs appsDir appName dirs scheme palette with
    | error e =>
      rw [hg] at h
      exact absurd h (by simp)
    | ok fm =>
      rw [hg] at h
      have h2 : (match planOps settings fm with
        | Except.error e => UpdateOutcome.planError e
        | Except.ok ops2 => UpdateOutcome.ran
            (applyOps (get_matching_scripts appsDir appName dirs.callDir scheme palette)
              env fs0 ops2)) = UpdateOutcome.ran st := h
      cases hp : planOps settings fm with
      | error e =>
        rw [hp] at h2
        exact absurd h2 (by simp)
      | ok ops2 =>
        rw [hp] at h2
        exact ⟨ops2, (UpdateOutcome.ran.inj h2).symm⟩

/-- C9: within one invocation of the update procedure, each distinct
matching script path executes at most once, and the matched script list has
its duplicates removed (the `list(set(...))` dedup).  The at-most-once bound
holds because the script block cannot complete even one loop iteration: the
first script executed aborts the invocation (`CalledProcessError` if it
fails, the `AttributeError` of the `Style.RESET` print if it succeeds), so
no script can ever run a second time. -/
theorem claim_C9_script_dedup_once (appsDir : Path) (appName : String) (dirs : AppDir)
    (settings : AppSettings) (env : Path → Bool) (scheme palette : String)
    (fs0 : Fs) (M : List Path)
    (hM : get_matching_scripts appsDir appName dirs.callDir scheme palette = some M) :
    M.Nodup ∧
    ∀ st, update_app_config appsDir appName dirs settings env scheme palette fs0 = .ran st →
      ∀ s, List.count s st.scripts ≤ 1 := by
  constructor
  · cases hcd : dirs.callDir with
    | none =>
      rw [hcd] at hM
      exact absurd hM (by simp [get_matching_scripts])
    | some files =>
      rw [hcd] at hM
      unfold get_matching_scripts at hM
      have hM2 := Option.some.inj hM
      rw [← hM2]
      exact List.nodup_dedup _
  · intro st hst s
    obtain ⟨ops, hops⟩ := update_ran_inv appsDir appName dirs settings env scheme palette
      fs0 st hst
    rw [hops]
    exact applyOps_scripts_count _ env fs0 ops s

/-- Witness for C9: the concrete invocation with two would-be successful
links and one matching deduplicated script; the trace holds that script at
most once (the invocation aborts right after its first execution). -/
theorem claim_C9_script_dedup_once_witness :
    ([["apps", "app", "call", "any-any.sh"]] : List Path).Nodup ∧
    ∀ st, update_app_config ["apps"] "app"
        ⟨some ["any-any.c1", "any-any.c2"], none, some ["any-any.sh"]⟩
        ⟨some ["tgt"], none⟩ (fun _ => true) "any" "any"
        ⟨[(["apps", "app", "generated", "any-any.c1"], .file "x"),
          (["apps", "app", "generated", "any-any.c2"], .file "y")], [["tgt"]]⟩ = .ran st →
      ∀ s, List.count s st.scripts ≤ 1 :=
  claim_C9_script_dedup_once ["apps"] "app"
    ⟨some ["any-any.c1", "any-any.c2"], none, some ["any-any.sh"]⟩
    ⟨some ["tgt"], none⟩ (fun _ => true) "any" "any"
    ⟨[(["apps", "app", "generated", "any-any.c1"], .file "x"),
      (["apps", "app", "generated", "any-any.c2"], .file "y")], [["tgt"]]⟩
    [["apps", "app", "call", "any-any.sh"]] rfl

theorem runOps_none_crash (env : Path → Bool) :
    ∀ (ops : List (Path × Path)) (st : RunState), st.error = none →
      ((runOps none env st ops).error = none ∧ (runOps none env st ops).succ = st.succ) ∨
      ((runOps none env st ops).error = some "TypeError: NoneType object is not iterable" ∧
        ∃ op, (runOps none env st ops).succ = st.succ ++ [op]) := by
  intro ops
  induction ops with
  | nil =>
    intro st herr
    exact Or.inl ⟨herr, rfl⟩
  | cons op rest ih =>
    intro st herr
    rw [runOps_cons, if_neg (by simp [herr])]
    by_cases hd : opDecision st.fs op = true
    · rw [runOp_succ_none env st op hd]
      rw [runOps_error none env _ rest (by simp)]
      exact Or.inr ⟨rfl, op, rfl⟩
    · have hd2 : opDecision st.fs op = false := by simpa using hd
      rw [runOp_fail none env st op hd2]
      exact ih { st with fail := st.fail ++ [op] } herr

/-- C10: when the application's `call/` directory does not exist,
`get_matching_scripts` returns `None` rather than an empty list, and as soon
as one link operation succeeds the executor's `for script in script_list`
iterates `None` and raises `TypeError`: the run aborts right after the first
success instead of recording the remaining operations' outcomes. -/
theorem claim_C10_missing_call_dir (appsDir : Path) (appName : String)
    (scheme palette : String) (env : Path → Bool) (fs0 : Fs)
    (ops : List (Path × Path))
    (hs : (applyOps none env fs0 ops).succ ≠ []) :
    get_matching_scripts appsDir appName none scheme palette = none ∧
    (applyOps none env fs0 ops).error = some "TypeError: NoneType object is not iterable" ∧
    (applyOps none env fs0 ops).succ.length = 1 := by
  refine ⟨rfl, ?_⟩
  rcases runOps_none_crash env ops ⟨fs0, [], [], [], none⟩ rfl with ⟨_, hsucc⟩ | ⟨herr, op, hsucc⟩
  · exact absurd hsucc hs
  · constructor
    · exact herr
    · rw [show applyOps none env fs0 ops = runOps none env ⟨fs0, [], [], [], none⟩ ops
        from rfl, hsucc]
      rfl

/-- Witness for C10: a concrete run with one succeeding operation and no
`call/` directory; the run aborts with the `TypeError` after that single
success. -/
theorem claim_C10_missing_call_dir_witness :
    get_matching_scripts ["apps"] "app" none "any" "any" = none ∧
    (applyOps none (fun _ => true) ⟨[(["apps", "x"], .file "a")], [["tgt"]]⟩
        [(["tgt", "a"], ["apps", "x"]), (["tgt", "b"], ["apps", "x"])]).error =
      some "TypeError: NoneType object is not iterable" ∧
    (applyOps none (fun _ => true) ⟨[(["apps", "x"], .file "a")], [["tgt"]]⟩
        [(["tgt", "a"], ["apps", "x"]), (["tgt", "b"], ["apps", "x"])]).succ.length = 1 :=
  claim_C10_missing_call_dir ["apps"] "app" "any" "any" (fun _ => true)
    ⟨[(["apps", "x"], .file "a")], [["tgt"]]⟩
    [(["tgt", "a"], ["apps", "x"]), (["tgt", "b"], ["apps", "x"])] (by decide)

/-! ### The conflict skip and the broken multi-application loop (claim C6) -/

/-- C6: an application specifying both `config_dir` and `config_map` is
skipped with zero operations (first conjunct, the correct part); but a
multi-application run cannot leave the other applications unaffected,
because `update_apps` references the undefined names `app_registry` and
`app_list` and raises `NameError` before processing any application
(second and third conjuncts) — the loop body was clearly meant to read
`self.app_registry`. -/
theorem claim_C6_conflict_skip :
    update_app_config ["apps"] "a" ⟨some ["any-any.c"], none, none⟩
      ⟨some ["tgt"], some [("c", ["x", "c"])]⟩ (fun _ => true) "any" "any" ⟨[], []⟩ =
      .skipped ∧
    update_apps [("a", ⟨some ["tgt"], some [("c", ["x", "c"])]⟩), ("b", ⟨some ["tgt"], none⟩)]
      .star = .error "NameError: name app_registry is not defined" ∧
    update_apps [("a", ⟨some ["tgt"], some [("c", ["x", "c"])]⟩), ("b", ⟨some ["tgt"], none⟩)]
      (.names ["b"]) = .error "NameError: name app_list is not defined" :=
  ⟨rfl, rfl, rfl⟩

/-! ### The explicit-map planning branch (claim C8) -/

/-- C8: under the explicit-map form no logical name present in the map can
produce a link operation: the branch evaluates the undefined name `abs_pat`
and raises `NameError` at the first mapped name (first conjunct; the
`config_dir` branch uses `util.absolute_path`, showing the intent).  Names
absent from the map are indeed silently omitted: with no mapped name the
run completes with zero operations (second conjunct). -/
theorem claim_C8_config_map_bug :
    update_app_config ["apps"] "app" ⟨some ["any-any.c"], none, none⟩
      ⟨none, some [("c", ["x", "c"])]⟩ (fun _ => true) "any" "any" ⟨[], []⟩ =
      .planError "NameError: name abs_pat is not defined" ∧
    update_app_config ["apps"] "app" ⟨some ["any-any.c"], none, none⟩
      ⟨none, some [("other", ["x", "c"])]⟩ (fun _ => true) "any" "any" ⟨[], []⟩ =
      .ran ⟨⟨[], []⟩, [], [], [], none⟩ :=
  ⟨rfl, rfl⟩

/-! ### The stable-run characterization (claim C3) -/

theorem fsAfterFrom_nil (fsb acc : Fs) : fsAfterFrom fsb [] acc = acc := rfl

theorem fsAfterFrom_cons (fsb acc : Fs) (op : Path × Path) (rest : List (Path × Path)) :
    fsAfterFrom fsb (op :: rest) acc =
      fsAfterFrom fsb rest (if opDecision fsb op then linkAt acc op else acc) := rfl

theorem fsAfterFrom_dirs (fsb : Fs) :
    ∀ (ops : List (Path × Path)) (acc : Fs), (fsAfterFrom fsb ops acc).dirs = acc.dirs := by
  intro ops
  induction ops with
  | nil => intro acc; rfl
  | cons op rest ih =>
    intro acc
    rw [fsAfterFrom_cons, ih]
    by_cases h : opDecision fsb op = true
    · rw [if_pos h, linkAt_dirs]
    · rw [if_neg h]

theorem fsAfterFrom_lookup_ne (fsb : Fs) :
    ∀ (ops : List (Path × Path)) (acc : Fs) (q : Path),
      (∀ op ∈ ops, q ≠ op.1) → (fsAfterFrom fsb ops acc).lookup q = acc.lookup q := by
  intro ops
  induction ops with
  | nil => intro acc q _; rfl
  | cons op rest ih =>
    intro acc q hq
    rw [fsAfterFrom_cons, ih _ _ (fun x hx => hq x (by simp [hx]))]
    by_cases h : opDecision fsb op = true
    · rw [if_pos h, lookup_linkAt, if_neg (hq op (by simp))]
    · rw [if_neg h]

theorem fsAfterFrom_lookup_self (fsb : Fs) :
    ∀ (ops : List (Path × Path)) (acc : Fs) (op : Path × Path), op ∈ ops →
      (ops.map Prod.fst).Nodup →
      (fsAfterFrom fsb ops acc).lookup op.1 =
        if opDecision fsb op then some (.symlink op.2) else acc.lookup op.1 := by
  intro ops
  induction ops with
  | nil => intro acc op hop; simp at hop
  | cons op2 rest ih =>
    intro acc op hop hnd
    simp only [List.map_cons, List.nodup_cons] at hnd
    rw [fsAfterFrom_cons]
    rcases List.mem_cons.mp hop with hop | hop
    · subst hop
      have hrest : ∀ x ∈ rest, op.1 ≠ x.1 := by
        intro x hx hc
        exact hnd.1 (hc ▸ List.mem_map_of_mem Prod.fst hx)
      rw [fsAfterFrom_lookup_ne fsb rest _ op.1 hrest]
      by_cases h : opDecision fsb op = true
      · rw [if_pos h, if_pos h, lookup_linkAt, if_pos rfl]
      · rw [if_neg h, if_neg h]
    · have hne : op.1 ≠ op2.1 := by
        intro hc
        exact hnd.1 (hc ▸ List.mem_map_of_mem Prod.fst hop)
      rw [ih _ op hop hnd.2]
      by_cases h : opDecision fsb op2 = true
      · rw [if_pos h, lookup_linkAt, if_neg hne]
      · rw [if_neg h]

theorem fsAfterFrom_congr (fsA fsB : Fs) :
    ∀ (ops : List (Path × Path)) (acc : Fs),
      (∀ op ∈ ops, opDecision fsA op = opDecision fsB op) →
      fsAfterFrom fsA ops acc = fsAfterFrom fsB ops acc := by
  intro ops
  induction ops with
  | nil => intro acc _; rfl
  | cons op rest ih =>
    intro acc hD
    rw [fsAfterFrom_cons, fsAfterFrom_cons, hD op (by simp)]
    exact ih _ (fun x hx => hD x (by simp [hx]))

/-- The value of `blockedAt` depends only on the entry at the path and the directories. -/
theorem blockedAt_ext (fsA fsB : Fs) (p : Path)
    (hl : fsA.lookup p = fsB.lookup p) (hdirs : fsA.dirs = fsB.dirs) :
    blockedAt fsA p = blockedAt fsB p := by
  simp only [blockedAt, hl, hdirs]

/-- Linking one operation leaves another operation's decision unchanged,
provided the link location is distinct from the other's artifact, parent and
link location, the other's artifact is a regular file and its parent path
holds no entry. -/
theorem opDecision_linkAt (fs : Fs) (op op2 : Path × Path)
    (hto : op2.2 ≠ op.1) (hpar : parentPath op2.1 ≠ op.1) (hfrom : op2.1 ≠ op.1)
    (hfile : ∃ c, fs.lookup op2.2 = some (.file c))
    (hparnone : fs.lookup (parentPath op2.1) = none) :
    opDecision (linkAt fs op) op2 = opDecision fs op2 := by
  obtain ⟨c, hc⟩ := hfile
  have h1 : (linkAt fs op).lookup op2.2 = some (.file c) := by
    rw [lookup_linkAt, if_neg hto]
    exact hc
  have h2 : (linkAt fs op).lookup (parentPath op2.1) = none := by
    rw [lookup_linkAt, if_neg hpar]
    exact hparnone
  unfold opDecision
  rw [pexists_of_lookup_file _ _ _ h1, pexists_of_lookup_file _ _ _ hc,
    pexists_of_lookup_none _ _ h2, pexists_of_lookup_none _ _ hparnone, linkAt_dirs,
    blockedAt_linkAt_ne fs op op2.1 hfrom]

/-- The stable-run characterization: under the separation hypotheses
(artifacts are regular files, link locations are pairwise distinct, disjoint
from artifacts, and their parent paths hold no entries) and with an empty
matched script list (a non-empty one would abort the run at the first
success), a run decides every operation against the starting filesystem:
the outcome lists are filters of the operation list, no exception is
raised, and the final filesystem is `fsAfter`. -/
theorem runOps_stable (env : Path → Bool) :
    ∀ (ops : List (Path × Path)) (fs : Fs) (s f : List (Path × Path)) (sc : List Path),
    (∀ op ∈ ops, ∃ c, fs.lookup op.2 = some (FsEntry.file c)) →
    (∀ op ∈ ops, ∀ op2 ∈ ops, op.1 ≠ op2.2) →
    ((ops.map Prod.fst).Nodup) →
    (∀ op ∈ ops, fs.lookup (parentPath op.1) = none) →
    (∀ op ∈ ops, ∀ op2 ∈ ops, parentPath op.1 ≠ op2.1) →
    runOps (some []) env ⟨fs, s, f, sc, none⟩ ops =
      ⟨fsAfter fs ops,
       s ++ ops.filter (fun op => opDecision fs op),
       f ++ ops.filter (fun op => !(opDecision fs op)),
       sc,
       none⟩ := by
  intro ops
  induction ops with
  | nil =>
    intro fs s f sc _ _ _ _ _
    simp [runOps_nil, fsAfter, fsAfterFrom_nil]
  | cons op rest ih =>
    intro fs s f sc h1 h2 h4 h7a h7b
    have hmem : op ∈ op :: rest := by simp
    have h1r : ∀ x ∈ rest, ∃ c, fs.lookup x.2 = some (FsEntry.file c) :=
      fun x hx => h1 x (by simp [hx])
    have h2r : ∀ x ∈ rest, ∀ y ∈ rest, x.1 ≠ y.2 :=
      fun x hx y hy => h2 x (by simp [hx]) y (by simp [hy])
    simp only [List.map_cons, List.nodup_cons] at h4
    have h7ar : ∀ x ∈ rest, fs.lookup (parentPath x.1) = none :=
      fun x hx => h7a x (by simp [hx])
    have h7br : ∀ x ∈ rest, ∀ y ∈ rest, parentPath x.1 ≠ y.1 :=
      fun x hx y hy => h7b x (by simp [hx]) y (by simp [hy])
    rw [runOps_cons, if_neg (by simp)]
    by_cases hd : opDecision fs op = true
    · rw [runOp_succ_some env _ op [] hd, runScripts_nil]
      have hDeq : ∀ x ∈ rest, opDecision (linkAt fs op) x = opDecision fs x := by
        intro x hx
        exact opDecision_linkAt fs op x
          (Ne.symm (h2 op hmem x (by simp [hx])))
          (h7b x (by simp [hx]) op hmem)
          (fun hc => h4.1 (hc ▸ List.mem_map_of_mem Prod.fst hx))
          (h1r x hx) (h7ar x hx)
      have h1' : ∀ x ∈ rest, ∃ c, (linkAt fs op).lookup x.2 = some (FsEntry.file c) := by
        intro x hx
        obtain ⟨c, hc⟩ := h1r x hx
        refine ⟨c, ?_⟩
        rw [lookup_linkAt, if_neg (Ne.symm (h2 op hmem x (by simp [hx])))]
        exact hc
      have h7a' : ∀ x ∈ rest, (linkAt fs op).lookup (parentPath x.1) = none := by
        intro x hx
        rw [lookup_linkAt, if_neg (h7b x (by simp [hx]) op hmem)]
        exact h7ar x hx
      have hIH := ih (linkAt fs op) (s ++ [op]) f sc h1' h2r h4.2 h7a' h7br
      show runOps (some []) env ⟨linkAt fs op, s ++ [op], f, sc, none⟩ rest = _
      rw [hIH]
      have hfilter : rest.filter (fun x => opDecision (linkAt fs op) x) =
          rest.filter (fun x => opDecision fs x) :=
        List.filter_congr (fun a ha => by rw [hDeq a ha])
      have hfilterN : rest.filter (fun x => !(opDecision (linkAt fs op) x)) =
          rest.filter (fun x => !(opDecision fs x)) :=
        List.filter_congr (fun a ha => by rw [hDeq a ha])
      have hfs : fsAfter (linkAt fs op) rest = fsAfter fs (op :: rest) := by
        rw [fsAfter, fsAfter, fsAfterFrom_cons, if_pos hd]
        exact fsAfterFrom_congr (linkAt fs op) fs rest (linkAt fs op) hDeq
      rw [hfilter, hfilterN, hfs]
      simp [List.filter_cons, hd]
    · have hd2 : opDecision fs op = false := by simpa using hd
      rw [runOp_fail (some []) env _ op hd2]
      have hIH := ih fs s (f ++ [op]) sc h1r h2r h4.2 h7ar h7br
      show runOps (some []) env ⟨fs, s, f ++ [op], sc, none⟩ rest = _
      rw [hIH]
      have hfs : fsAfter fs rest = fsAfter fs (op :: rest) := by
        rw [fsAfter, fsAfter, fsAfterFrom_cons, if_neg (by simp [hd2])]
      rw [hfs]
      simp [List.filter_cons, hd2]

theorem isFileAt_iff (fs : Fs) (p : Path) :
    isFileAt fs p = true ↔ ∃ c, fs.lookup p = some (.file c) := by
  unfold isFileAt
  cases h : fs.lookup p with
  | none => simp
  | some e =>
    cases e with
    | file c => simp
    | symlink t => simp

theorem update_of_planned (appsDir : Path) (appName : String) (dirs : AppDir)
    (settings : AppSettings) (scheme palette : String) (ops : List (Path × Path))
    (h : planned appsDir appName dirs settings scheme palette = some ops)
    (env : Path → Bool) (fs : Fs) :
    update_app_config appsDir appName dirs settings env scheme palette fs =
      .ran (applyOps (get_matching_scripts appsDir appName dirs.callDir scheme palette)
        env fs ops) := by
  unfold planned at h
  unfold update_app_config
  by_cases hb : (settings.config_dir.isSome && settings.config_map.isSome) = true
  · rw [if_pos hb] at h
    exact absurd h (by simp)
  · rw [if_neg hb] at h
    rw [if_neg hb]
    cases hg : get_matching_configs appsDir appName dirs scheme palette with
    | error e =>
      rw [hg] at h
      exact absurd h (by simp)
    | ok fm =>
      rw [hg] at h
      have h2 : (match planOps settings fm with
        | Except.error _ => none
        | Except.ok ops2 => some ops2) = some ops := h
      show (match planOps settings fm with
        | Except.error e => UpdateOutcome.planError e
        | Except.ok ops2 => UpdateOutcome.ran
            (applyOps (get_matching_scripts appsDir appName dirs.callDir scheme palette)
              env fs ops2)) = _
      cases hp : planOps settings fm with
      | error e =>
        rw [hp] at h2
        exact absurd h2 (by simp)
      | ok ops2 =>
        rw [hp] at h2
        have heq : ops2 = ops := by simpa using h2
        subst heq
        rfl

/-- C3 (amended): provided every planned artifact is a regular file, the
planned link locations are pairwise distinct, disjoint from the artifact
paths, and their parent paths hold no filesystem entries, the `call/`
directory exists and no script in it matches the requested palette and
scheme (the matched list is empty — a matched script would abort the run at
the first successful link, via `CalledProcessError` or the `Style.RESET`
`AttributeError`), then running the full link reconciliation twice with
unchanged inputs yields a second run whose succeeded and failed lists equal
the first run's (in particular zero newly reported failures) and whose
final filesystem is extensionally identical to the first run's. -/
theorem claim_C3_idempotent_reconciliation (appsDir : Path) (appName : String)
    (dirs : AppDir) (settings : AppSettings) (env : Path → Bool)
    (scheme palette : String) (fs0 : Fs) (ops : List (Path × Path))
    (hplan : planned appsDir appName dirs settings scheme palette = some ops)
    (hM : get_matching_scripts appsDir appName dirs.callDir scheme palette = some [])
    (h1 : ∀ op ∈ ops, isFileAt fs0 op.2 = true)
    (h2 : ∀ op ∈ ops, ∀ op2 ∈ ops, op.1 ≠ op2.2)
    (h4 : (ops.map Prod.fst).Nodup)
    (h7a : ∀ op ∈ ops, fs0.lookup (parentPath op.1) = none)
    (h7b : ∀ op ∈ ops, ∀ op2 ∈ ops, parentPath op.1 ≠ op2.1) :
    ∃ st1 st2,
      update_app_config appsDir appName dirs settings env scheme palette fs0 = .ran st1 ∧
      update_app_config appsDir appName dirs settings env scheme palette st1.fs = .ran st2 ∧
      st1.error = none ∧ st2.error = none ∧
      (∀ q, st2.fs.lookup q = st1.fs.lookup q) ∧ st2.fs.dirs = st1.fs.dirs ∧
      st2.fail = st1.fail ∧ st2.succ = st1.succ := by
  have h1e : ∀ op ∈ ops, ∃ c, fs0.lookup op.2 = some (.file c) :=
    fun op hop => (isFileAt_iff fs0 op.2).mp (h1 op hop)
  have hrun1 := runOps_stable env ops fs0 [] [] [] h1e h2 h4 h7a h7b
  set fs1 := fsAfter fs0 ops with hfs1
  have hfr : ∀ q, (∀ op ∈ ops, q ≠ op.1) → fs1.lookup q = fs0.lookup q :=
    fun q hq => fsAfterFrom_lookup_ne fs0 ops fs0 q hq
  have hto1 : ∀ op ∈ ops, fs1.lookup op.2 = fs0.lookup op.2 :=
    fun op hop => hfr op.2 (fun op2 hop2 => Ne.symm (h2 op2 hop2 op hop))
  have hpar1 : ∀ op ∈ ops, fs1.lookup (parentPath op.1) = none :=
    fun op hop => (hfr (parentPath op.1) (fun op2 hop2 => h7b op hop op2 hop2)).trans
      (h7a op hop)
  have hdirs1 : fs1.dirs = fs0.dirs := fsAfterFrom_dirs fs0 ops fs0
  have hself : ∀ op ∈ ops, fs1.lookup op.1 =
      if opDecision fs0 op then some (.symlink op.2) else fs0.lookup op.1 :=
    fun op hop => fsAfterFrom_lookup_self fs0 ops fs0 op hop h4
  have hDeq : ∀ op ∈ ops, opDecision fs1 op = opDecision fs0 op := by
    intro op hop
    obtain ⟨c, hc⟩ := h1e op hop
    have hbl : blockedAt fs1 op.1 = blockedAt fs0 op.1 := by
      by_cases hDop : opDecision fs0 op = true
      · have hsl : fs1.lookup op.1 = some (.symlink op.2) := by
          rw [hself op hop, if_pos hDop]
        have hb1 : blockedAt fs1 op.1 = false := by
          unfold blockedAt
          rw [hsl]
        have hb0 : blockedAt fs0 op.1 = false := (opDecision_parts fs0 op hDop).2.2
        rw [hb1, hb0]
      · have hD0 : opDecision fs0 op = false := by simpa using hDop
        have hlk : fs1.lookup op.1 = fs0.lookup op.1 := by
          rw [hself op hop, if_neg (by simp [hD0])]
        exact blockedAt_ext fs1 fs0 op.1 hlk hdirs1
    unfold opDecision
    rw [pexists_of_lookup_file fs1 _ c (by rw [hto1 op hop]; exact hc),
      pexists_of_lookup_file fs0 _ c hc,
      pexists_of_lookup_none fs1 _ (hpar1 op hop),
      pexists_of_lookup_none fs0 _ (h7a op hop), hdirs1, hbl]
  have h1e' : ∀ op ∈ ops, ∃ c, fs1.lookup op.2 = some (.file c) := by
    intro op hop
    rw [hto1 op hop]
    exact h1e op hop
  have hrun2 := runOps_stable env ops fs1 [] [] [] h1e' h2 h4 hpar1 h7b
  have hup1 := update_of_planned appsDir appName dirs settings scheme palette ops hplan env fs0
  rw [hM] at hup1
  have hup2 := update_of_planned appsDir appName dirs settings scheme palette ops hplan env fs1
  rw [hM] at hup2
  refine ⟨⟨fs1, [] ++ ops.filter (fun op => opDecision fs0 op),
      [] ++ ops.filter (fun op => !(opDecision fs0 op)), [], none⟩,
    ⟨fsAfter fs1 ops, [] ++ ops.filter (fun op => opDecision fs1 op),
      [] ++ ops.filter (fun op => !(opDecision fs1 op)), [], none⟩,
    ?_, ?_, rfl, rfl, ?_, ?_, ?_, ?_⟩
  · rw [hup1]
    exact congrArg UpdateOutcome.ran hrun1
  · rw [hup2]
    exact congrArg UpdateOutcome.ran hrun2
  · intro q
    show (fsAfter fs1 ops).lookup q = fs1.lookup q
    by_cases hq : ∃ op ∈ ops, op.1 = q
    · obtain ⟨op, hop, hopq⟩ := hq
      subst hopq
      show (fsAfterFrom fs1 ops fs1).lookup op.1 = fs1.lookup op.1
      rw [fsAfterFrom_lookup_self fs1 ops fs1 op hop h4, hDeq op hop]
      by_cases hDop : opDecision fs0 op = true
      · rw [if_pos hDop, hself op hop, if_pos hDop]
      · rw [if_neg hDop]
    · push_neg at hq
      exact fsAfterFrom_lookup_ne fs1 ops fs1 q (fun op hop => Ne.symm (hq op hop))
  · show (fsAfter fs1 ops).dirs = fs1.dirs
    exact fsAfterFrom_dirs fs1 ops fs1
  · show [] ++ ops.filter (fun op => !(opDecision fs1 op)) = _
    rw [List.filter_congr (fun op hop => by rw [hDeq op hop] :
      ∀ op ∈ ops, (!(opDecision fs1 op)) = (!(opDecision fs0 op)))]
  · show [] ++ ops.filter (fun op => opDecision fs1 op) = _
    rw [List.filter_congr (fun op hop => hDeq op hop :
      ∀ op ∈ ops, opDecision fs1 op = opDecision fs0 op)]

/-- Witness for C3 (amended): a one-operation reconciliation satisfying the
separation hypotheses; both runs complete identically. -/
theorem claim_C3_idempotent_reconciliation_witness :
    ∃ st1 st2,
      update_app_config ["apps"] "app" ⟨some ["any-any.c"], none, some []⟩
        ⟨some ["tgt"], none⟩ (fun _ => true) "any" "any"
        ⟨[(["apps", "app", "generated", "any-any.c"], .file "x")], [["tgt"]]⟩ = .ran st1 ∧
      update_app_config ["apps"] "app" ⟨some ["any-any.c"], none, some []⟩
        ⟨some ["tgt"], none⟩ (fun _ => true) "any" "any" st1.fs = .ran st2 ∧
      st1.error = none ∧ st2.error = none ∧
      (∀ q, st2.fs.lookup q = st1.fs.lookup q) ∧ st2.fs.dirs = st1.fs.dirs ∧
      st2.fail = st1.fail ∧ st2.succ = st1.succ :=
  claim_C3_idempotent_reconciliation ["apps"] "app" ⟨some ["any-any.c"], none, some []⟩
    ⟨some ["tgt"], none⟩ (fun _ => true) "any" "any"
    ⟨[(["apps", "app", "generated", "any-any.c"], .file "x")], [["tgt"]]⟩
    [(["tgt", "c"], ["apps", "app", "generated", "any-any.c"])]
    rfl rfl (by decide) (by decide) (by decide) (by decide) (by decide)

/-- C3 counterexample: a catalog whose artifact `any-any.a` is a symlink to
the (not yet existing) link location of artifact `any-any.b`.  Run 1 fails
the first operation (dangling artifact) and then creates `tgt/b`; in run 2
the first operation's artifact now resolves, so run 2 creates the new link
`tgt/a` — the set of symlinks on disk after run 2 differs from the set after
run 1, refuting idempotence as stated (1 failure then 0 failures, and the
entry at `tgt/a` changes between runs). -/
theorem claim_C3_counterexample :
    ((ranState (update_app_config ["apps"] "a" ⟨some ["any-any.a", "any-any.b"], none, some []⟩
        ⟨some ["tgt"], none⟩ (fun _ => true) "any" "any"
        ⟨[(["apps", "a", "generated", "any-any.a"], .symlink ["tgt", "b"]),
          (["apps", "a", "generated", "any-any.b"], .file "x")], [["tgt"]]⟩)).bind
      (fun st1 => (ranState (update_app_config ["apps"] "a"
          ⟨some ["any-any.a", "any-any.b"], none, some []⟩
          ⟨some ["tgt"], none⟩ (fun _ => true) "any" "any" st1.fs)).map
        (fun st2 => (st1.fail.length, st2.fail.length,
          decide (st2.fs.lookup ["tgt", "a"] = st1.fs.lookup ["tgt", "a"]))))) =
    some (1, 0, false) := by
  decide

end Autoconf
